import Mathlib

/-!
Shallow embedding of the ray tracer in src/src/main.rs.

Rust `f64` values are modelled as real numbers.  The `f64::INFINITY`
upper search bound that `ray_color` passes to `Hittable::hit` is
modelled by giving the `t_max` parameter the type `WithTop ℝ` (with `⊤`
for infinity).  The rejection-sampling random generators
(`Vec3::random_unit_vector`, `Vec3::random_in_unit_sphere`,
`random_float`) are modelled as externally supplied samples bundled in
a `ScatterRand` record; `ray_color` consumes a stream of them, one per
bounce.  Consequently every definition below is a deterministic
function of its inputs together with the supplied random samples.
-/

noncomputable section

/-- 3-component vector, main.rs lines 7-12. -/
structure Vec3 where
  x : ℝ
  y : ℝ
  z : ℝ

/-- `Default for Vec3`, main.rs lines 14-22. -/
def Vec3.default : Vec3 := ⟨0, 0, 0⟩

/-- `Neg for Vec3`, main.rs lines 24-33. -/
instance : Neg Vec3 := ⟨fun v => ⟨-v.x, -v.y, -v.z⟩⟩

/-- `Add for Vec3`, main.rs lines 35-44. -/
instance : Add Vec3 := ⟨fun u v => ⟨u.x + v.x, u.y + v.y, u.z + v.z⟩⟩

/-- `Sub for Vec3`, main.rs lines 104-113. -/
instance : Sub Vec3 := ⟨fun u v => ⟨u.x - v.x, u.y - v.y, u.z - v.z⟩⟩

/-- Component-wise `Mul<Vec3> for Vec3`, main.rs lines 71-80. -/
instance : Mul Vec3 := ⟨fun u v => ⟨u.x * v.x, u.y * v.y, u.z * v.z⟩⟩

/-- `Mul<f64> for Vec3`, main.rs lines 49-58. -/
instance : HMul Vec3 ℝ Vec3 := ⟨fun v t => ⟨v.x * t, v.y * t, v.z * t⟩⟩

/-- `Mul<Vec3> for f64`, main.rs lines 60-69 (note the source multiplies
component-first: `rhs.x * self`). -/
instance : HMul ℝ Vec3 Vec3 := ⟨fun t v => ⟨v.x * t, v.y * t, v.z * t⟩⟩

/-- `Div<f64> for Vec3`, main.rs lines 93-102. -/
instance : HDiv Vec3 ℝ Vec3 := ⟨fun v t => ⟨v.x / t, v.y / t, v.z / t⟩⟩

/-- `cross`, main.rs lines 145-151. -/
def cross (u v : Vec3) : Vec3 :=
  ⟨u.y * v.z - u.z * v.y, u.z * v.x - u.x * v.z, u.x * v.y - u.y * v.x⟩

/-- `dot`, main.rs lines 153-155. -/
def dot (u v : Vec3) : ℝ :=
  u.x * v.x + u.y * v.y + u.z * v.z

/-- `Vec3::near_zero`, main.rs lines 162-165 (`s = 1e-8`). -/
def Vec3.near_zero (v : Vec3) : Prop :=
  |v.x| < 1e-8 ∧ |v.y| < 1e-8 ∧ |v.z| < 1e-8

instance (v : Vec3) : Decidable v.near_zero := by
  unfold Vec3.near_zero; infer_instance

/-- `Vec3::length_squared`, main.rs lines 221-223. -/
def Vec3.length_squared (v : Vec3) : ℝ :=
  v.x * v.x + v.y * v.y + v.z * v.z

/-- `Vec3::length`, main.rs lines 216-220. -/
def Vec3.length (v : Vec3) : ℝ :=
  Real.sqrt v.length_squared

/-- `Vec3::unit_vector`, main.rs lines 212-214. -/
def Vec3.unit_vector (vector : Vec3) : Vec3 :=
  vector / vector.length

/-- `Ray`, main.rs lines 231-236. -/
structure Ray where
  origin : Vec3
  direction : Vec3

/-- `Ray::at`, main.rs lines 239-241. -/
def Ray.at (r : Ray) (t : ℝ) : Vec3 :=
  r.origin + r.direction * t

/-- The three material variants of the source (`Lambertian` lines
403-412, `Metal` lines 435-448, `Dielectric` lines 466-479).  The
source shares materials through `Rc<dyn Material>`; since materials are
immutable values they are modelled as a plain inductive. -/
inductive Material where
  | lambertian (albedo : Vec3)
  | metal (albedo : Vec3) (fuzz : ℝ)
  | dielectric (ir : ℝ)

/-- `HitRecord`, main.rs lines 253-260. -/
structure HitRecord where
  p : Vec3
  normal : Vec3
  mat_ptr : Material
  t : ℝ
  front_face : Bool

/-- `HitRecord::set_face_normal`, main.rs lines 262-272. -/
def HitRecord.set_face_normal (h : HitRecord) (r : Ray) (outward_normal : Vec3) : HitRecord :=
  if dot r.direction outward_normal < 0 then
    { h with front_face := true, normal := outward_normal }
  else
    { h with front_face := false, normal := -outward_normal }

/-- `Default for HitRecord`, main.rs lines 274-284. -/
def HitRecord.default : HitRecord :=
  { p := Vec3.default, normal := Vec3.default,
    mat_ptr := Material.metal (Vec3.mk 0.7 0.3 0.3) 1, t := 0, front_face := false }

/-- `Sphere`, main.rs lines 291-295. -/
structure Sphere where
  center : Vec3
  radius : ℝ
  mat_ptr : Material

/-- The discriminant `half_b * half_b - a * c` computed by
`Sphere::hit`, main.rs lines 309-314, with `oc = origin - center`,
`a = |direction|²`, `half_b = dot(oc, direction)`,
`c = |oc|² - radius²` inlined. -/
def sphereDisc (s : Sphere) (r : Ray) : ℝ :=
  dot (r.origin - s.center) r.direction * dot (r.origin - s.center) r.direction
    - r.direction.length_squared
      * ((r.origin - s.center).length_squared - s.radius * s.radius)

/-- The first candidate root `(-half_b - sqrtd) / a` of `Sphere::hit`,
main.rs line 322. -/
def sphereRoot1 (s : Sphere) (r : Ray) : ℝ :=
  (-(dot (r.origin - s.center) r.direction) - Real.sqrt (sphereDisc s r))
    / r.direction.length_squared

/-- The second candidate root `(-half_b + sqrtd) / a` of `Sphere::hit`,
main.rs line 324. -/
def sphereRoot2 (s : Sphere) (r : Ray) : ℝ :=
  (-(dot (r.origin - s.center) r.direction) + Real.sqrt (sphereDisc s r))
    / r.direction.length_squared

/-- The record written by `Sphere::hit` on success, main.rs lines
330-334: `rec.t = root; rec.p = r.at(rec.t); outward_normal =
(rec.p - center) / radius; rec.set_face_normal(r, outward_normal);
rec.mat_ptr = mat`.  Every field of the record is overwritten, so the
result does not depend on the incoming record. -/
def Sphere.hitRecordAt (s : Sphere) (r : Ray) (root : ℝ) : HitRecord :=
  HitRecord.set_face_normal
    { p := r.at root, normal := (r.at root - s.center) / s.radius,
      mat_ptr := s.mat_ptr, t := root, front_face := false }
    r ((r.at root - s.center) / s.radius)

/-- `Sphere::hit`, main.rs lines 307-338.  `rec` is in-out in the
source (`&mut HitRecord`); here the function returns the bool together
with the final contents of `rec`. -/
def Sphere.hit (s : Sphere) (r : Ray) (t_min : ℝ) (t_max : WithTop ℝ) (h : HitRecord) :
    Bool × HitRecord :=
  if sphereDisc s r < 0 then (false, h)
  else if sphereRoot1 s r < t_min ∨ t_max < (sphereRoot1 s r : WithTop ℝ) then
    if sphereRoot2 s r < t_min ∨ t_max < (sphereRoot2 s r : WithTop ℝ) then (false, h)
    else (true, s.hitRecordAt r (sphereRoot2 s r))
  else (true, s.hitRecordAt r (sphereRoot1 s r))

/-- `HittableList` stores `Vec<Rc<dyn Hittable>>` (main.rs lines
342-344); `Sphere` is the only `Hittable` implementation in the
program, so the aggregate is a list of spheres. -/
abbrev HittableList := List Sphere

/-- The loop body of `HittableList::hit`, main.rs lines 363-376, as a
recursion over the remaining objects.  The accumulator mirrors the
source's local state: `temp_rec`, `hit_anything`, `closest_so_far`, and
the caller's in-out `rec` (called `h` here). -/
def HittableList.hitAux :
    List Sphere → Ray → ℝ → HitRecord → Bool → WithTop ℝ → HitRecord → Bool × HitRecord
  | [], _, _, _, hit_anything, _, h => (hit_anything, h)
  | object :: rest, r, t_min, temp_rec, hit_anything, closest_so_far, h =>
    if (object.hit r t_min closest_so_far temp_rec).1 then
      HittableList.hitAux rest r t_min (object.hit r t_min closest_so_far temp_rec).2 true
        (((object.hit r t_min closest_so_far temp_rec).2.t : ℝ) : WithTop ℝ)
        (object.hit r t_min closest_so_far temp_rec).2
    else
      HittableList.hitAux rest r t_min (object.hit r t_min closest_so_far temp_rec).2
        hit_anything closest_so_far h

/-- `HittableList::hit`, main.rs lines 362-378: `temp_rec` starts as
`HitRecord::default()`, `hit_anything` as `false`, `closest_so_far` as
`t_max`. -/
def HittableList.hit (objects : HittableList) (r : Ray) (t_min : ℝ) (t_max : WithTop ℝ)
    (h : HitRecord) : Bool × HitRecord :=
  HittableList.hitAux objects r t_min HitRecord.default false t_max h

/-- `reflect`, main.rs lines 392-394: `v - n * dot(v, n) * 2.0`. -/
def reflect (v n : Vec3) : Vec3 :=
  v - n * dot v n * (2 : ℝ)

/-- `refract`, main.rs lines 396-401. -/
def refract (uv n : Vec3) (etai_over_etat : ℝ) : Vec3 :=
  (uv + n * min (dot (-uv) n) 1) * etai_over_etat
    + (-(Real.sqrt |1 - ((uv + n * min (dot (-uv) n) 1) * etai_over_etat).length_squared|)) * n

/-- `Dielectric::reflectance`, main.rs lines 474-478. -/
def reflectance (cosine ref_idx : ℝ) : ℝ :=
  ((1 - ref_idx) / (1 + ref_idx)) * ((1 - ref_idx) / (1 + ref_idx))
    + (1 - ((1 - ref_idx) / (1 + ref_idx)) * ((1 - ref_idx) / (1 + ref_idx)))
      * (1 - cosine) ^ (5 : ℕ)

/-- One bounce worth of random samples: the `Vec3::random_unit_vector()`
draw used by `Lambertian::scatter`, the `Vec3::random_in_unit_sphere()`
draw used by `Metal::scatter`, and the `random_float()` draw used by
`Dielectric::scatter`. -/
structure ScatterRand where
  unitVec : Vec3
  inSphere : Vec3
  uniform : ℝ

/-- `Material::scatter` for the three variants (`Lambertian::scatter`
main.rs lines 414-433, `Metal::scatter` lines 450-464,
`Dielectric::scatter` lines 481-509).  The in-out `attenuation` and
`scattered` arguments are returned; both are always written before the
function returns, so their previous values are irrelevant. -/
def materialScatter (m : Material) (rnd : ScatterRand) (r_in : Ray) (h : HitRecord) :
    Bool × Vec3 × Ray :=
  match m with
  | Material.lambertian albedo =>
    if (h.normal + rnd.unitVec).near_zero then
      (true, albedo, Ray.mk h.p h.normal)
    else
      (true, albedo, Ray.mk h.p (h.normal + rnd.unitVec))
  | Material.metal albedo fuzz =>
    (decide (dot (reflect (Vec3.unit_vector r_in.direction) h.normal + rnd.inSphere * fuzz)
        h.normal > 0),
      albedo,
      Ray.mk h.p (reflect (Vec3.unit_vector r_in.direction) h.normal + rnd.inSphere * fuzz))
  | Material.dielectric ir =>
    (true, Vec3.mk 1 1 1,
      Ray.mk h.p
        (if (if h.front_face then 1 / ir else ir)
              * Real.sqrt (1 - min (dot (-(Vec3.unit_vector r_in.direction)) h.normal) 1
                  * min (dot (-(Vec3.unit_vector r_in.direction)) h.normal) 1) > 1
            ∨ reflectance (min (dot (-(Vec3.unit_vector r_in.direction)) h.normal) 1)
                (if h.front_face then 1 / ir else ir) > rnd.uniform then
          reflect (Vec3.unit_vector r_in.direction) h.normal
        else
          refract (Vec3.unit_vector r_in.direction) h.normal
            (if h.front_face then 1 / ir else ir)))

/-- `ray_color`, main.rs lines 561-587.  `rnds` supplies the random
samples consumed by the scatter call of each bounce. -/
def ray_color (r : Ray) (world : HittableList) (depth : ℤ) (rnds : ℕ → ScatterRand) : Vec3 :=
  if _h : depth ≤ 0 then Vec3.default
  else if (HittableList.hit world r 0.001 ⊤ HitRecord.default).1 then
    if (materialScatter (HittableList.hit world r 0.001 ⊤ HitRecord.default).2.mat_ptr
          (rnds 0) r (HittableList.hit world r 0.001 ⊤ HitRecord.default).2).1 then
      (materialScatter (HittableList.hit world r 0.001 ⊤ HitRecord.default).2.mat_ptr
          (rnds 0) r (HittableList.hit world r 0.001 ⊤ HitRecord.default).2).2.1
        * ray_color
            (materialScatter (HittableList.hit world r 0.001 ⊤ HitRecord.default).2.mat_ptr
              (rnds 0) r (HittableList.hit world r 0.001 ⊤ HitRecord.default).2).2.2
            world (depth - 1) (fun n => rnds (n + 1))
    else Vec3.default
  else
    Vec3.mk 1 1 1 * (1 - ((Vec3.unit_vector r.direction).y + 1) * 0.5)
      + Vec3.mk 0.5 0.7 1 * (((Vec3.unit_vector r.direction).y + 1) * 0.5)
termination_by depth.toNat
decreasing_by
  simp_wf
  omega

/-- Membership in the closed parametric window `[t_min, t_max]`: this
is exactly the test `!(root < t_min || t_max < root)` performed by
`Sphere::hit` (main.rs lines 323 and 325). -/
def inWindow (t_min : ℝ) (t_max : WithTop ℝ) (t : ℝ) : Prop :=
  t_min ≤ t ∧ (t : WithTop ℝ) ≤ t_max

instance (t_min : ℝ) (t_max : WithTop ℝ) (t : ℝ) : Decidable (inWindow t_min t_max t) := by
  unfold inWindow; infer_instance

/-- Modelled from the spec's words: membership in the "open/closed
interval (t_min, t_max]" that §4.3 of the spec claims `hit` searches.
Used only to compare the spec's interval against the code's. -/
def inOpenWindow (t_min : ℝ) (t_max : WithTop ℝ) (t : ℝ) : Prop :=
  t_min < t ∧ (t : WithTop ℝ) ≤ t_max

/-- `Sphere::hit` succeeds: nonnegative discriminant and one of the two
candidate roots inside the closed window. -/
def sphereHits (s : Sphere) (r : Ray) (t_min : ℝ) (t_max : WithTop ℝ) : Prop :=
  0 ≤ sphereDisc s r
    ∧ (inWindow t_min t_max (sphereRoot1 s r) ∨ inWindow t_min t_max (sphereRoot2 s r))

instance (s : Sphere) (r : Ray) (t_min : ℝ) (t_max : WithTop ℝ) :
    Decidable (sphereHits s r t_min t_max) := by
  unfold sphereHits; infer_instance

/-- The root `Sphere::hit` selects on success: the smaller candidate
root when it is inside the window, otherwise the larger one. -/
def sphereBestRoot (s : Sphere) (r : Ray) (t_min : ℝ) (t_max : WithTop ℝ) : ℝ :=
  if inWindow t_min t_max (sphereRoot1 s r) then sphereRoot1 s r else sphereRoot2 s r

/-- Sphere of the counterexample scene for the interval-endpoint claim:
unit sphere at the origin. -/
def ceSphere : Sphere :=
  ⟨Vec3.mk 0 0 0, 1, Material.lambertian (Vec3.mk 1 0 0)⟩

/-- Ray of the counterexample scene for the interval-endpoint claim:
from (2,0,0) towards the origin; it meets `ceSphere` at t = 1 and
t = 3. -/
def ceRay : Ray :=
  ⟨Vec3.mk 2 0 0, Vec3.mk (-1) 0 0⟩

/-- First sphere of the tie-break counterexample scene (red
lambertian). -/
def tieSphere1 : Sphere :=
  ⟨Vec3.mk 0 0 (-2), 1, Material.lambertian (Vec3.mk 1 0 0)⟩

/-- Second sphere of the tie-break counterexample scene: same geometry
as `tieSphere1`, different material (green lambertian), so both spheres
hit any ray at exactly the same parameters. -/
def tieSphere2 : Sphere :=
  ⟨Vec3.mk 0 0 (-2), 1, Material.lambertian (Vec3.mk 0 1 0)⟩

/-- Ray of the tie-break counterexample scene: from the origin towards
(0,0,-1); it meets both spheres first at t = 1. -/
def tieRay : Ray :=
  ⟨Vec3.mk 0 0 0, Vec3.mk 0 0 (-1)⟩

/-- Sphere used by witnesses: centered at (0,0,-1), radius 0.5 (the
test geometry suggested by §8 of the spec). -/
def wSphere : Sphere :=
  ⟨Vec3.mk 0 0 (-1), 0.5, Material.lambertian (Vec3.mk 0.5 0.5 0.5)⟩

/-- Ray used by witnesses: from the origin towards (0,0,-1). -/
def wRay : Ray :=
  ⟨Vec3.mk 0 0 0, Vec3.mk 0 0 (-1)⟩

/-- Ray used by the miss witnesses: from the origin straight up, so it
misses `missSphere`. -/
def missRay : Ray :=
  ⟨Vec3.mk 0 0 0, Vec3.mk 0 1 0⟩

/-- Sphere missed by `missRay`: centered at (0,0,-5), radius 1. -/
def missSphere : Sphere :=
  ⟨Vec3.mk 0 0 (-5), 1, Material.lambertian (Vec3.mk 0.5 0.5 0.5)⟩

/-- Hit record used by the dielectric witness: normal (0,1,0), hit from
the back face. -/
def dieRec : HitRecord :=
  ⟨Vec3.mk 0 0 0, Vec3.mk 0 1 0, Material.dielectric 2, 0, false⟩

/-- Ray used by the dielectric witness: direction (1,0,0), grazing the
surface, which forces total internal reflection at ratio 2. -/
def dieRay : Ray :=
  ⟨Vec3.mk 0 0 0, Vec3.mk 1 0 0⟩

/-- Hit record used by the metal witness: normal (0,0,1). -/
def metRec : HitRecord :=
  ⟨Vec3.mk 0 0 0, Vec3.mk 0 0 1, Material.metal (Vec3.mk 0.8 0.8 0.8) 0, 0, true⟩

/-- Hit record used by the lambertian witness: normal (0,1,0). -/
def lamRec : HitRecord :=
  ⟨Vec3.mk 0 0 0, Vec3.mk 0 1 0, Material.lambertian (Vec3.mk 0.5 0.5 0.5), 0, true⟩

/-! ## Basic vector lemmas -/

lemma Vec3.neg_def (v : Vec3) : -v = Vec3.mk (-v.x) (-v.y) (-v.z) := rfl

lemma Vec3.add_def (u v : Vec3) : u + v = Vec3.mk (u.x + v.x) (u.y + v.y) (u.z + v.z) := rfl

lemma Vec3.sub_def (u v : Vec3) : u - v = Vec3.mk (u.x - v.x) (u.y - v.y) (u.z - v.z) := rfl

lemma Vec3.mul_def (u v : Vec3) : u * v = Vec3.mk (u.x * v.x) (u.y * v.y) (u.z * v.z) := rfl

lemma Vec3.smul_right_def (v : Vec3) (t : ℝ) :
    v * t = Vec3.mk (v.x * t) (v.y * t) (v.z * t) := rfl

lemma Vec3.smul_left_def (t : ℝ) (v : Vec3) :
    t * v = Vec3.mk (v.x * t) (v.y * t) (v.z * t) := rfl

lemma Vec3.div_def (v : Vec3) (t : ℝ) : v / t = Vec3.mk (v.x / t) (v.y / t) (v.z / t) := rfl

lemma dot_comm (u v : Vec3) : dot u v = dot v u := by
  unfold dot; ring

lemma dot_neg_left (u v : Vec3) : dot (-u) v = -dot u v := by
  unfold dot
  rw [Vec3.neg_def]
  ring

lemma Vec3.length_squared_pos {v : Vec3} (h : v ≠ Vec3.mk 0 0 0) :
    0 < v.length_squared := by
  unfold Vec3.length_squared
  rcases lt_or_eq_of_le
      (add_nonneg (add_nonneg (mul_self_nonneg v.x) (mul_self_nonneg v.y))
        (mul_self_nonneg v.z)) with hlt | heq
  · exact hlt
  · exfalso
    apply h
    have hx : v.x = 0 := by nlinarith [mul_self_nonneg v.x, mul_self_nonneg v.y, mul_self_nonneg v.z]
    have hy : v.y = 0 := by nlinarith [mul_self_nonneg v.x, mul_self_nonneg v.y, mul_self_nonneg v.z]
    have hz : v.z = 0 := by nlinarith [mul_self_nonneg v.x, mul_self_nonneg v.y, mul_self_nonneg v.z]
    obtain ⟨a, b, c⟩ := v
    simp only [Vec3.mk.injEq]
    exact ⟨hx, hy, hz⟩

/-! ## Claim C9: algebraic identities of the vector module -/

/-- Claim C9: for all vectors a and b, `dot(a,b) = dot(b,a)`,
`cross(a,b) = -cross(b,a)`, and `length_squared(a) = dot(a,a)`. -/
theorem vec_algebra_identities :
    (∀ a b : Vec3, dot a b = dot b a)
    ∧ (∀ a b : Vec3, cross a b = -cross b a)
    ∧ (∀ a : Vec3, a.length_squared = dot a a) := by
  refine ⟨fun a b => dot_comm a b, fun a b => ?_, fun a => ?_⟩
  · simp only [cross, Vec3.neg_def, Vec3.mk.injEq]
    refine ⟨by ring, by ring, by ring⟩
  · unfold Vec3.length_squared dot
    ring

/-! ## Claim C3: face-normal orientation -/

/-- Claim C3: after `set_face_normal`, if `dot(direction, outward) < 0`
then `front_face` is true and the stored normal is the outward normal;
otherwise `front_face` is false and the stored normal is its negation.
In both cases the stored normal opposes the ray direction:
`dot(normal, direction) ≤ 0`. -/
theorem set_face_normal_orientation (h : HitRecord) (r : Ray) (n : Vec3) :
    (dot r.direction n < 0 →
      (h.set_face_normal r n).front_face = true ∧ (h.set_face_normal r n).normal = n)
    ∧ (0 ≤ dot r.direction n →
      (h.set_face_normal r n).front_face = false ∧ (h.set_face_normal r n).normal = -n)
    ∧ dot (h.set_face_normal r n).normal r.direction ≤ 0 := by
  unfold HitRecord.set_face_normal
  by_cases hc : dot r.direction n < 0
  · rw [if_pos hc]
    refine ⟨fun _ => ⟨rfl, rfl⟩, fun hge => absurd hc (not_lt.mpr hge), ?_⟩
    rw [dot_comm]
    exact le_of_lt hc
  · rw [if_neg hc]
    refine ⟨fun hlt => absurd hlt hc, fun _ => ⟨rfl, rfl⟩, ?_⟩
    rw [dot_neg_left, dot_comm]
    simpa using not_lt.mp hc

/-- Witness for C3 at a concrete input: the ray direction (0,0,-1)
against outward normal (0,0,1) gives a front-face hit that keeps the
normal. -/
theorem set_face_normal_orientation_witness :
    (HitRecord.set_face_normal HitRecord.default
        (Ray.mk (Vec3.mk 0 0 0) (Vec3.mk 0 0 (-1))) (Vec3.mk 0 0 1)).front_face = true
    ∧ (HitRecord.set_face_normal HitRecord.default
        (Ray.mk (Vec3.mk 0 0 0) (Vec3.mk 0 0 (-1))) (Vec3.mk 0 0 1)).normal = Vec3.mk 0 0 1 := by
  exact (set_face_normal_orientation HitRecord.default
      (Ray.mk (Vec3.mk 0 0 0) (Vec3.mk 0 0 (-1))) (Vec3.mk 0 0 1)).1
    (by unfold dot; norm_num)

/-! ## Claim C7: exhausted recursion depth returns black -/

/-- Claim C7: `ray_color` with `depth ≤ 0` returns black (0,0,0) for
every ray, scene and random stream. -/
theorem ray_color_depth_nonpos_black (r : Ray) (world : HittableList) (depth : ℤ)
    (rnds : ℕ → ScatterRand) (hdepth : depth ≤ 0) :
    ray_color r world depth rnds = Vec3.mk 0 0 0 := by
  unfold ray_color
  rw [dif_pos hdepth]
  rfl

/-- Witness for C7 at a concrete input. -/
theorem ray_color_depth_nonpos_black_witness :
    ray_color (Ray.mk (Vec3.mk 0 0 0) (Vec3.mk 0 0 (-1))) [] 0
      (fun _ => ⟨Vec3.mk 0 0 0, Vec3.mk 0 0 0, 0⟩) = Vec3.mk 0 0 0 :=
  ray_color_depth_nonpos_black _ _ _ _ le_rfl

/-! ## Characterization of `Sphere.hit` -/

lemma Sphere.hit_eq (s : Sphere) (r : Ray) (t_min : ℝ) (t_max : WithTop ℝ) (h : HitRecord) :
    s.hit r t_min t_max h =
      if sphereHits s r t_min t_max
      then (true, s.hitRecordAt r (sphereBestRoot s r t_min t_max))
      else (false, h) := by
  unfold Sphere.hit
  by_cases h1 : sphereDisc s r < 0
  · rw [if_pos h1, if_neg (fun hh => absurd hh.1 (not_le.mpr h1))]
  · rw [if_neg h1]
    by_cases h2 : sphereRoot1 s r < t_min ∨ t_max < (sphereRoot1 s r : WithTop ℝ)
    · rw [if_pos h2]
      by_cases h3 : sphereRoot2 s r < t_min ∨ t_max < (sphereRoot2 s r : WithTop ℝ)
      · rw [if_pos h3, if_neg]
        intro hh
        rcases hh.2 with w1 | w2
        · rcases h2 with hl | hr
          · exact absurd w1.1 (not_le.mpr hl)
          · exact absurd w1.2 (not_le.mpr hr)
        · rcases h3 with hl | hr
          · exact absurd w2.1 (not_le.mpr hl)
          · exact absurd w2.2 (not_le.mpr hr)
      · have w2 : inWindow t_min t_max (sphereRoot2 s r) :=
          ⟨not_lt.mp (not_or.mp h3).1, not_lt.mp (not_or.mp h3).2⟩
        have nw1 : ¬ inWindow t_min t_max (sphereRoot1 s r) := by
          intro w1
          rcases h2 with hl | hr
          · exact absurd w1.1 (not_le.mpr hl)
          · exact absurd w1.2 (not_le.mpr hr)
        rw [if_neg h3, if_pos ⟨not_lt.mp h1, Or.inr w2⟩]
        unfold sphereBestRoot
        rw [if_neg nw1]
    · have w1 : inWindow t_min t_max (sphereRoot1 s r) :=
        ⟨not_lt.mp (not_or.mp h2).1, not_lt.mp (not_or.mp h2).2⟩
      rw [if_neg h2, if_pos ⟨not_lt.mp h1, Or.inl w1⟩]
      unfold sphereBestRoot
      rw [if_pos w1]

lemma Sphere.hit_fst_iff (s : Sphere) (r : Ray) (t_min : ℝ) (t_max : WithTop ℝ) (h : HitRecord) :
    (s.hit r t_min t_max h).1 = true ↔ sphereHits s r t_min t_max := by
  rw [Sphere.hit_eq]
  by_cases hh : sphereHits s r t_min t_max
  · rw [if_pos hh]; simpa using hh
  · rw [if_neg hh]; simpa using hh

lemma Sphere.hit_snd_of_hits (s : Sphere) (r : Ray) (t_min : ℝ) (t_max : WithTop ℝ)
    (h : HitRecord) (hh : sphereHits s r t_min t_max) :
    (s.hit r t_min t_max h).2 = s.hitRecordAt r (sphereBestRoot s r t_min t_max) := by
  rw [Sphere.hit_eq, if_pos hh]

lemma Sphere.hit_snd_of_not_hits (s : Sphere) (r : Ray) (t_min : ℝ) (t_max : WithTop ℝ)
    (h : HitRecord) (hh : ¬ sphereHits s r t_min t_max) :
    (s.hit r t_min t_max h).2 = h := by
  rw [Sphere.hit_eq, if_neg hh]

lemma Sphere.hitRecordAt_t (s : Sphere) (r : Ray) (root : ℝ) :
    (s.hitRecordAt r root).t = root := by
  unfold Sphere.hitRecordAt HitRecord.set_face_normal
  split
  · rfl
  · rfl

lemma Sphere.hitRecordAt_mat (s : Sphere) (r : Ray) (root : ℝ) :
    (s.hitRecordAt r root).mat_ptr = s.mat_ptr := by
  unfold Sphere.hitRecordAt HitRecord.set_face_normal
  split
  · rfl
  · rfl

/-- The selected root lies in the closed window whenever the sphere
hits. -/
lemma sphereBestRoot_mem (s : Sphere) (r : Ray) (t_min : ℝ) (t_max : WithTop ℝ)
    (hh : sphereHits s r t_min t_max) :
    inWindow t_min t_max (sphereBestRoot s r t_min t_max) := by
  unfold sphereBestRoot
  by_cases w1 : inWindow t_min t_max (sphereRoot1 s r)
  · rw [if_pos w1]; exact w1
  · rw [if_neg w1]
    rcases hh.2 with h1 | h2
    · exact absurd h1 w1
    · exact h2

/-! ## Concrete evaluations for the sphere-hit scenes -/

lemma ceDisc : sphereDisc ceSphere ceRay = 1 := by
  simp only [sphereDisc, ceSphere, ceRay, dot, Vec3.length_squared, Vec3.sub_def]
  norm_num

lemma ceRoot1 : sphereRoot1 ceSphere ceRay = 1 := by
  unfold sphereRoot1
  rw [ceDisc, Real.sqrt_one]
  simp only [ceSphere, ceRay, dot, Vec3.length_squared, Vec3.sub_def]
  norm_num

lemma ceRoot2 : sphereRoot2 ceSphere ceRay = 3 := by
  unfold sphereRoot2
  rw [ceDisc, Real.sqrt_one]
  simp only [ceSphere, ceRay, dot, Vec3.length_squared, Vec3.sub_def]
  norm_num

lemma wDisc : sphereDisc wSphere wRay = 0.25 := by
  simp only [sphereDisc, wSphere, wRay, dot, Vec3.length_squared, Vec3.sub_def]
  norm_num

lemma wRoot1 : sphereRoot1 wSphere wRay = 0.5 := by
  unfold sphereRoot1
  rw [wDisc, show (0.25 : ℝ) = 0.5 ^ 2 by norm_num, Real.sqrt_sq (by norm_num : (0:ℝ) ≤ 0.5)]
  simp only [wSphere, wRay, dot, Vec3.length_squared, Vec3.sub_def]
  norm_num

lemma wRay_direction_ne : wRay.direction ≠ Vec3.mk 0 0 0 := by
  intro hcon
  have hz := congrArg Vec3.z hcon
  simp only [wRay] at hz
  norm_num at hz

lemma wSphere_hits : sphereHits wSphere wRay 0 ((10 : ℝ) : WithTop ℝ) := by
  refine ⟨by rw [wDisc]; norm_num, Or.inl ⟨by rw [wRoot1]; norm_num, ?_⟩⟩
  rw [wRoot1]
  exact WithTop.coe_le_coe.mpr (by norm_num)

/-! ## Claim C2: the sphere intersection test -/

/-- Claim C2 (amended): for every ray with nonzero direction,
`Sphere::hit` returns true iff the discriminant `half_b² - a·c` is
nonnegative and at least one of the two roots `(-half_b ∓ √disc)/a`
lies in the CLOSED interval `[t_min, t_max]`; on success the selected
`t` is the smaller root when it is in that closed range, otherwise the
larger root.  (The original claim's half-open interval `(t_min, t_max]`
is refuted by `sphere_hit_open_interval_counterexample`.) -/
theorem sphere_hit_characterization (s : Sphere) (r : Ray) (t_min : ℝ) (t_max : WithTop ℝ)
    (h : HitRecord) (_hd : r.direction ≠ Vec3.mk 0 0 0) :
    ((s.hit r t_min t_max h).1 = true ↔
      0 ≤ sphereDisc s r
        ∧ (inWindow t_min t_max (sphereRoot1 s r) ∨ inWindow t_min t_max (sphereRoot2 s r)))
    ∧ ((s.hit r t_min t_max h).1 = true →
      (s.hit r t_min t_max h).2.t =
        if inWindow t_min t_max (sphereRoot1 s r) then sphereRoot1 s r
        else sphereRoot2 s r) := by
  constructor
  · exact Sphere.hit_fst_iff s r t_min t_max h
  · intro htrue
    have hh := (Sphere.hit_fst_iff s r t_min t_max h).mp htrue
    rw [Sphere.hit_snd_of_hits s r t_min t_max h hh, Sphere.hitRecordAt_t]
    rfl

/-- Counterexample to C2 as stated: the unit sphere at the origin and
the ray from (2,0,0) towards it meet at t = 1 and t = 3.  With
`t_min = 1`, `t_max = 2` the code hits (it accepts the root `t = 1 =
t_min`), yet neither root lies in the spec's half-open interval
`(1, 2]`; so "hit iff a root lies in (t_min, t_max]" is false. -/
theorem sphere_hit_open_interval_counterexample :
    (ceSphere.hit ceRay 1 ((2 : ℝ) : WithTop ℝ) HitRecord.default).1 = true
    ∧ ¬ (0 ≤ sphereDisc ceSphere ceRay
        ∧ (inOpenWindow 1 ((2 : ℝ) : WithTop ℝ) (sphereRoot1 ceSphere ceRay)
          ∨ inOpenWindow 1 ((2 : ℝ) : WithTop ℝ) (sphereRoot2 ceSphere ceRay))) := by
  constructor
  · refine (Sphere.hit_fst_iff _ _ _ _ _).mpr ⟨by rw [ceDisc]; norm_num, Or.inl ?_⟩
    refine ⟨by rw [ceRoot1], ?_⟩
    rw [ceRoot1]
    exact WithTop.coe_le_coe.mpr (by norm_num)
  · rintro ⟨-, hwin | hwin⟩
    · unfold inOpenWindow at hwin
      rw [ceRoot1] at hwin
      exact absurd hwin.1 (by norm_num)
    · unfold inOpenWindow at hwin
      rw [ceRoot2] at hwin
      have h32 := WithTop.coe_le_coe.mp hwin.2
      norm_num at h32

/-- Witness for C2 at a concrete input: the ray from the origin towards
the sphere at (0,0,-1) of radius 0.5 hits with selected `t = 0.5`. -/
theorem sphere_hit_characterization_witness :
    (wSphere.hit wRay 0 ((10 : ℝ) : WithTop ℝ) HitRecord.default).1 = true
    ∧ (wSphere.hit wRay 0 ((10 : ℝ) : WithTop ℝ) HitRecord.default).2.t = 0.5 := by
  have hmain := sphere_hit_characterization wSphere wRay 0 ((10 : ℝ) : WithTop ℝ)
    HitRecord.default wRay_direction_ne
  have htrue : (wSphere.hit wRay 0 ((10 : ℝ) : WithTop ℝ) HitRecord.default).1 = true :=
    hmain.1.mpr wSphere_hits
  refine ⟨htrue, ?_⟩
  rw [hmain.2 htrue, if_pos]
  · exact wRoot1
  · exact ⟨by rw [wRoot1]; norm_num, by rw [wRoot1]; exact WithTop.coe_le_coe.mpr (by norm_num)⟩

lemma Vec3.unit_vector_of_ls_one {v : Vec3} (hv : v.length_squared = 1) :
    v.unit_vector = v := by
  unfold Vec3.unit_vector Vec3.length
  rw [hv, Real.sqrt_one, Vec3.div_def, div_one, div_one, div_one]

/-! ## Basic `HittableList.hitAux` lemmas -/

lemma HittableList.hitAux_fst_true (objects : List Sphere) (r : Ray) (t_min : ℝ) :
    ∀ (temp : HitRecord) (closest : WithTop ℝ) (h : HitRecord),
      (HittableList.hitAux objects r t_min temp true closest h).1 = true := by
  induction objects with
  | nil => intro temp closest h; rfl
  | cons o rest ih =>
    intro temp closest h
    simp only [HittableList.hitAux]
    by_cases hb : (o.hit r t_min closest temp).1
    · rw [if_pos hb]
      exact ih _ _ _
    · rw [if_neg hb]
      exact ih _ _ _

lemma HittableList.hitAux_miss_frame (r : Ray) (t_min : ℝ) :
    ∀ (objects : List Sphere) (temp : HitRecord) (ha : Bool) (closest : WithTop ℝ)
      (h : HitRecord),
      (HittableList.hitAux objects r t_min temp ha closest h).1 = false →
      (HittableList.hitAux objects r t_min temp ha closest h).2 = h := by
  intro objects
  induction objects with
  | nil => intro temp ha closest h _; rfl
  | cons o rest ih =>
    intro temp ha closest h hfalse
    simp only [HittableList.hitAux] at hfalse ⊢
    by_cases hb : (o.hit r t_min closest temp).1
    · rw [if_pos hb] at hfalse ⊢
      rw [HittableList.hitAux_fst_true] at hfalse
      exact absurd hfalse (by simp)
    · rw [if_neg hb] at hfalse ⊢
      exact ih _ _ _ _ hfalse

/-! ## Claim C10: a failed hit leaves the record unchanged -/

/-- Claim C10: whenever `Sphere::hit` or `HittableList::hit` returns
false, the caller's hit record is returned unchanged. -/
theorem hit_miss_frame (s : Sphere) (objects : HittableList) (r : Ray) (t_min : ℝ)
    (t_max : WithTop ℝ) (h : HitRecord) :
    ((s.hit r t_min t_max h).1 = false → (s.hit r t_min t_max h).2 = h)
    ∧ ((HittableList.hit objects r t_min t_max h).1 = false →
      (HittableList.hit objects r t_min t_max h).2 = h) := by
  constructor
  · intro hfalse
    apply Sphere.hit_snd_of_not_hits
    intro hh
    have htrue := (Sphere.hit_fst_iff s r t_min t_max h).mpr hh
    rw [htrue] at hfalse
    exact absurd hfalse (by simp)
  · intro hfalse
    exact HittableList.hitAux_miss_frame r t_min objects HitRecord.default false t_max h hfalse

lemma missDisc : sphereDisc missSphere missRay = -24 := by
  simp only [sphereDisc, missSphere, missRay, dot, Vec3.length_squared, Vec3.sub_def]
  norm_num

/-- Witness for C10 at concrete inputs: a sphere the ray misses, and
the empty scene. -/
theorem hit_miss_frame_witness :
    (missSphere.hit missRay 0 ((10 : ℝ) : WithTop ℝ) HitRecord.default).2 = HitRecord.default
    ∧ (HittableList.hit [] missRay 0 ((10 : ℝ) : WithTop ℝ) HitRecord.default).2
        = HitRecord.default := by
  have hnot : ¬ sphereHits missSphere missRay 0 ((10 : ℝ) : WithTop ℝ) := by
    intro hh
    have := hh.1
    rw [missDisc] at this
    norm_num at this
  have hfalse : (missSphere.hit missRay 0 ((10 : ℝ) : WithTop ℝ) HitRecord.default).1 = false := by
    rw [Sphere.hit_eq, if_neg hnot]
  exact ⟨(hit_miss_frame missSphere [] missRay 0 ((10 : ℝ) : WithTop ℝ) HitRecord.default).1 hfalse,
    (hit_miss_frame missSphere [] missRay 0 ((10 : ℝ) : WithTop ℝ) HitRecord.default).2 rfl⟩

/-! ## Claim C6: Lambertian scatter -/

/-- Claim C6: `Lambertian::scatter` always scatters, sets the
attenuation to the albedo, and emits a ray from the hit point whose
direction is `normal + random_unit_vector`, falling back to the normal
itself when that sum has all components below 1e-8 in absolute
value. -/
theorem lambertian_scatter_spec (albedo : Vec3) (rnd : ScatterRand) (r_in : Ray)
    (h : HitRecord) (_hu : rnd.unitVec.length_squared = 1) :
    (materialScatter (Material.lambertian albedo) rnd r_in h).1 = true
    ∧ (materialScatter (Material.lambertian albedo) rnd r_in h).2.1 = albedo
    ∧ (materialScatter (Material.lambertian albedo) rnd r_in h).2.2.origin = h.p
    ∧ (materialScatter (Material.lambertian albedo) rnd r_in h).2.2.direction =
        if |(h.normal + rnd.unitVec).x| < 1e-8 ∧ |(h.normal + rnd.unitVec).y| < 1e-8
            ∧ |(h.normal + rnd.unitVec).z| < 1e-8
        then h.normal else h.normal + rnd.unitVec := by
  dsimp only [materialScatter]
  by_cases hnz : (h.normal + rnd.unitVec).near_zero
  · have hnz' := hnz
    unfold Vec3.near_zero at hnz'
    rw [if_pos hnz]
    exact ⟨rfl, rfl, rfl, by rw [if_pos hnz']⟩
  · have hnz' := hnz
    unfold Vec3.near_zero at hnz'
    rw [if_neg hnz]
    exact ⟨rfl, rfl, rfl, by rw [if_neg hnz']⟩

/-- Witness for C6 at a concrete input: normal (0,1,0) plus unit sample
(1,0,0) is not near zero, so the outgoing direction is their sum. -/
theorem lambertian_scatter_spec_witness :
    (materialScatter (Material.lambertian (Vec3.mk 0.5 0.5 0.5))
        ⟨Vec3.mk 1 0 0, Vec3.mk 0 0 0, 0⟩ wRay lamRec).1 = true
    ∧ (materialScatter (Material.lambertian (Vec3.mk 0.5 0.5 0.5))
        ⟨Vec3.mk 1 0 0, Vec3.mk 0 0 0, 0⟩ wRay lamRec).2.2.direction = Vec3.mk 1 1 0 := by
  have hmain := lambertian_scatter_spec (Vec3.mk 0.5 0.5 0.5)
    ⟨Vec3.mk 1 0 0, Vec3.mk 0 0 0, 0⟩ wRay lamRec
    (by unfold Vec3.length_squared; norm_num)
  refine ⟨hmain.1, ?_⟩
  rw [hmain.2.2.2, if_neg]
  · rw [show lamRec.normal = Vec3.mk 0 1 0 from rfl]
    simp only [Vec3.add_def]
    norm_num
  · intro hc
    rw [show lamRec.normal = Vec3.mk 0 1 0 from rfl] at hc
    simp only [Vec3.add_def] at hc
    norm_num at hc

/-! ## Claim C5: Metal scatter -/

/-- Claim C5: `Metal::scatter` emits the mirror reflection of the unit
incoming direction perturbed by `fuzz` times the random-in-unit-sphere
sample; it reports a scatter exactly when that direction has strictly
positive dot product with the surface normal, and in that case the
attenuation is the albedo. -/
theorem metal_scatter_spec (albedo : Vec3) (fuzz : ℝ) (rnd : ScatterRand) (r_in : Ray)
    (h : HitRecord) (_hs : rnd.inSphere.length_squared < 1) :
    (materialScatter (Material.metal albedo fuzz) rnd r_in h).2.2.direction
        = reflect (Vec3.unit_vector r_in.direction) h.normal + rnd.inSphere * fuzz
    ∧ ((materialScatter (Material.metal albedo fuzz) rnd r_in h).1 = true ↔
        0 < dot (reflect (Vec3.unit_vector r_in.direction) h.normal + rnd.inSphere * fuzz)
          h.normal)
    ∧ ((materialScatter (Material.metal albedo fuzz) rnd r_in h).1 = true →
        (materialScatter (Material.metal albedo fuzz) rnd r_in h).2.1 = albedo) := by
  dsimp only [materialScatter]
  refine ⟨rfl, ?_, fun _ => rfl⟩
  simp [decide_eq_true_eq]

/-- Witness for C5 at a concrete input: the ray straight down the z
axis against normal (0,0,1) reflects to (0,0,1), which points away from
the surface, so the metal scatters with its albedo. -/
theorem metal_scatter_spec_witness :
    (materialScatter (Material.metal (Vec3.mk 0.8 0.8 0.8) 0)
        ⟨Vec3.mk 0 0 0, Vec3.mk 0 0 0, 0⟩ wRay metRec).1 = true
    ∧ (materialScatter (Material.metal (Vec3.mk 0.8 0.8 0.8) 0)
        ⟨Vec3.mk 0 0 0, Vec3.mk 0 0 0, 0⟩ wRay metRec).2.1 = Vec3.mk 0.8 0.8 0.8 := by
  have hmain := metal_scatter_spec (Vec3.mk 0.8 0.8 0.8) 0
    ⟨Vec3.mk 0 0 0, Vec3.mk 0 0 0, 0⟩ wRay metRec
    (by unfold Vec3.length_squared; norm_num)
  have hunit : Vec3.unit_vector wRay.direction = Vec3.mk 0 0 (-1) := by
    rw [show wRay.direction = Vec3.mk 0 0 (-1) from rfl]
    exact Vec3.unit_vector_of_ls_one (by unfold Vec3.length_squared; norm_num)
  have htrue : (materialScatter (Material.metal (Vec3.mk 0.8 0.8 0.8) 0)
      ⟨Vec3.mk 0 0 0, Vec3.mk 0 0 0, 0⟩ wRay metRec).1 = true := by
    refine hmain.2.1.mpr ?_
    rw [hunit, show metRec.normal = Vec3.mk 0 0 1 from rfl]
    simp only [reflect, dot, Vec3.sub_def, Vec3.add_def, Vec3.smul_right_def]
    norm_num
  exact ⟨htrue, hmain.2.2 htrue⟩

/-! ## Claim C4: Dielectric scatter -/

/-- Claim C4: `Dielectric::scatter` always scatters with attenuation
white (1,1,1); under total internal reflection (refraction ratio times
sinθ exceeding 1, where the ratio is `1/ir` on a front-face hit and
`ir` otherwise and `sinθ = √(1 - cos²θ)`) the outgoing direction is the
mirror reflection of the unit incoming direction about the normal. -/
theorem dielectric_scatter_spec (ir : ℝ) (rnd : ScatterRand) (r_in : Ray) (h : HitRecord) :
    (materialScatter (Material.dielectric ir) rnd r_in h).1 = true
    ∧ (materialScatter (Material.dielectric ir) rnd r_in h).2.1 = Vec3.mk 1 1 1
    ∧ ((if h.front_face then 1 / ir else ir)
          * Real.sqrt (1 - min (dot (-(Vec3.unit_vector r_in.direction)) h.normal) 1
              * min (dot (-(Vec3.unit_vector r_in.direction)) h.normal) 1) > 1 →
        (materialScatter (Material.dielectric ir) rnd r_in h).2.2.direction =
          reflect (Vec3.unit_vector r_in.direction) h.normal) := by
  dsimp only [materialScatter]
  refine ⟨rfl, rfl, fun htir => ?_⟩
  rw [if_pos (Or.inl htir)]

/-- Witness for C4 at a concrete input: a grazing ray (direction
(1,0,0), normal (0,1,0)) hitting the back face of a dielectric with
ir = 2 has `ratio·sinθ = 2 > 1`, so it reflects to (1,0,0). -/
theorem dielectric_scatter_spec_witness :
    (materialScatter (Material.dielectric 2)
        ⟨Vec3.mk 0 0 0, Vec3.mk 0 0 0, 0⟩ dieRay dieRec).1 = true
    ∧ (materialScatter (Material.dielectric 2)
        ⟨Vec3.mk 0 0 0, Vec3.mk 0 0 0, 0⟩ dieRay dieRec).2.1 = Vec3.mk 1 1 1
    ∧ (materialScatter (Material.dielectric 2)
        ⟨Vec3.mk 0 0 0, Vec3.mk 0 0 0, 0⟩ dieRay dieRec).2.2.direction = Vec3.mk 1 0 0 := by
  have hmain := dielectric_scatter_spec 2 ⟨Vec3.mk 0 0 0, Vec3.mk 0 0 0, 0⟩ dieRay dieRec
  have hunit : Vec3.unit_vector dieRay.direction = Vec3.mk 1 0 0 := by
    rw [show dieRay.direction = Vec3.mk 1 0 0 from rfl]
    exact Vec3.unit_vector_of_ls_one (by unfold Vec3.length_squared; norm_num)
  have hdot : dot (-(Vec3.mk 1 0 0)) dieRec.normal = 0 := by
    rw [show dieRec.normal = Vec3.mk 0 1 0 from rfl]
    simp only [dot, Vec3.neg_def]
    norm_num
  have htir := hmain.2.2 (by
    rw [hunit, hdot, show dieRec.front_face = false from rfl,
      min_eq_left (by norm_num : (0:ℝ) ≤ 1)]
    rw [show (1:ℝ) - 0 * 0 = 1 by norm_num, Real.sqrt_one]
    norm_num)
  refine ⟨hmain.1, hmain.2.1, ?_⟩
  rw [htir, hunit, show dieRec.normal = Vec3.mk 0 1 0 from rfl]
  simp only [reflect, dot, Vec3.sub_def, Vec3.smul_right_def]
  norm_num

/-! ## Claim C8: background gradient for rays that hit nothing -/

/-- Claim C8: when the scene test misses (in particular for the empty
scene) and the depth budget is positive, `ray_color` returns the
vertical gradient `(1-t)·(1,1,1) + t·(0.5,0.7,1.0)` with
`t = (unit_direction.y + 1)/2`. -/
theorem ray_color_background (r : Ray) (world : HittableList) (depth : ℤ)
    (rnds : ℕ → ScatterRand) (hdepth : 0 < depth)
    (hmiss : (HittableList.hit world r 0.001 ⊤ HitRecord.default).1 = false) :
    ray_color r world depth rnds =
      Vec3.mk 1 1 1 * (1 - ((Vec3.unit_vector r.direction).y + 1) * 0.5)
        + Vec3.mk 0.5 0.7 1 * (((Vec3.unit_vector r.direction).y + 1) * 0.5) := by
  unfold ray_color
  rw [dif_neg (by omega : ¬ depth ≤ 0), if_neg (by rw [hmiss]; simp)]

/-- Witness for C8 at a concrete input: against the empty scene, the
ray pointing straight up (0,1,0) has `t = 1` and `ray_color` returns
the sky-blue endpoint (0.5,0.7,1.0). -/
theorem ray_color_background_witness :
    ray_color (Ray.mk (Vec3.mk 0 0 0) (Vec3.mk 0 1 0)) [] 1
      (fun _ => ⟨Vec3.mk 0 0 0, Vec3.mk 0 0 0, 0⟩) = Vec3.mk 0.5 0.7 1 := by
  rw [ray_color_background (Ray.mk (Vec3.mk 0 0 0) (Vec3.mk 0 1 0)) [] 1
    (fun _ => ⟨Vec3.mk 0 0 0, Vec3.mk 0 0 0, 0⟩) (by norm_num) rfl]
  have hunit : Vec3.unit_vector (Ray.mk (Vec3.mk 0 0 0) (Vec3.mk 0 1 0)).direction
      = Vec3.mk 0 1 0 := by
    rw [show (Ray.mk (Vec3.mk 0 0 0) (Vec3.mk 0 1 0)).direction = Vec3.mk 0 1 0 from rfl]
    exact Vec3.unit_vector_of_ls_one (by unfold Vec3.length_squared; norm_num)
  rw [hunit]
  simp only [Vec3.smul_right_def, Vec3.add_def]
  norm_num

/-! ## Ordering and stability of the sphere roots -/

lemma root1_le_root2 {s : Sphere} {r : Ray} (hd : r.direction ≠ Vec3.mk 0 0 0) :
    sphereRoot1 s r ≤ sphereRoot2 s r := by
  unfold sphereRoot1 sphereRoot2
  have ha : 0 < r.direction.length_squared := Vec3.length_squared_pos hd
  have hs : 0 ≤ Real.sqrt (sphereDisc s r) := Real.sqrt_nonneg _
  have h1 : (-(dot (r.origin - s.center) r.direction) - Real.sqrt (sphereDisc s r))
      ≤ (-(dot (r.origin - s.center) r.direction) + Real.sqrt (sphereDisc s r)) := by
    linarith
  exact (div_le_div_iff_of_pos_right ha).mpr h1

/-- Shrinking (or growing) the search window to any bound that still
contains the selected root preserves the hit and the selected root. -/
lemma sphereHits_shift {r : Ray} (hd : r.direction ≠ Vec3.mk 0 0 0) (s : Sphere) (t_min : ℝ)
    (τ τ' : WithTop ℝ) (hh : sphereHits s r t_min τ)
    (hle : ((sphereBestRoot s r t_min τ : ℝ) : WithTop ℝ) ≤ τ') :
    sphereHits s r t_min τ' ∧ sphereBestRoot s r t_min τ' = sphereBestRoot s r t_min τ := by
  by_cases w1 : inWindow t_min τ (sphereRoot1 s r)
  · have hb1 : sphereBestRoot s r t_min τ = sphereRoot1 s r := by
      unfold sphereBestRoot; rw [if_pos w1]
    have w1' : inWindow t_min τ' (sphereRoot1 s r) := ⟨w1.1, by rw [← hb1]; exact hle⟩
    refine ⟨⟨hh.1, Or.inl w1'⟩, ?_⟩
    unfold sphereBestRoot
    rw [if_pos w1', if_pos w1]
  · have hb2 : sphereBestRoot s r t_min τ = sphereRoot2 s r := by
      unfold sphereBestRoot; rw [if_neg w1]
    have w2 : inWindow t_min τ (sphereRoot2 s r) := by
      rcases hh.2 with hw | hw
      · exact absurd hw w1
      · exact hw
    have hr12 : sphereRoot1 s r ≤ sphereRoot2 s r := root1_le_root2 hd
    have hlow : sphereRoot1 s r < t_min := by
      by_contra hge
      push_neg at hge
      exact w1 ⟨hge, le_trans (WithTop.coe_le_coe.mpr hr12) w2.2⟩
    have nw1' : ¬ inWindow t_min τ' (sphereRoot1 s r) := fun hw => absurd hw.1 (not_le.mpr hlow)
    have w2' : inWindow t_min τ' (sphereRoot2 s r) := ⟨w2.1, by rw [← hb2]; exact hle⟩
    refine ⟨⟨hh.1, Or.inr w2'⟩, ?_⟩
    unfold sphereBestRoot
    rw [if_neg nw1', if_neg w1]

/-! ## The fold of `HittableList::hit` -/

lemma HittableList.hitAux_all_miss (r : Ray) (t_min : ℝ) :
    ∀ (objects : List Sphere) (temp : HitRecord) (ha : Bool) (closest : WithTop ℝ)
      (h : HitRecord), (∀ o ∈ objects, ¬ sphereHits o r t_min closest) →
      HittableList.hitAux objects r t_min temp ha closest h = (ha, h) := by
  intro objects
  induction objects with
  | nil => intro temp ha closest h _; rfl
  | cons o rest ih =>
    intro temp ha closest h hmiss
    simp only [HittableList.hitAux]
    have hb : ¬ (o.hit r t_min closest temp).1 = true :=
      fun hc => hmiss o (by simp) ((Sphere.hit_fst_iff o r t_min closest temp).mp hc)
    rw [if_neg hb]
    exact ih _ _ _ _ (fun o' ho' => hmiss o' (by simp [ho']))

lemma HittableList.hitAux_fst (r : Ray) (t_min : ℝ) :
    ∀ (objects : List Sphere) (temp : HitRecord) (closest : WithTop ℝ) (h : HitRecord),
      ((HittableList.hitAux objects r t_min temp false closest h).1 = true ↔
        ∃ o ∈ objects, sphereHits o r t_min closest) := by
  intro objects
  induction objects with
  | nil =>
    intro temp closest h
    simp [HittableList.hitAux]
  | cons o rest ih =>
    intro temp closest h
    simp only [HittableList.hitAux]
    by_cases hb : (o.hit r t_min closest temp).1
    · rw [if_pos hb]
      constructor
      · intro _
        exact ⟨o, by simp, (Sphere.hit_fst_iff o r t_min closest temp).mp hb⟩
      · intro _
        exact HittableList.hitAux_fst_true rest r t_min _ _ _
    · rw [if_neg hb]
      rw [ih ((o.hit r t_min closest temp).2) closest h]
      constructor
      · rintro ⟨o', ho', hh⟩
        exact ⟨o', by simp [ho'], hh⟩
      · rintro ⟨o', ho', hh⟩
        rcases List.mem_cons.mp ho' with rfl | hmem
        · exact absurd ((Sphere.hit_fst_iff o' r t_min closest temp).mpr hh) hb
        · exact ⟨o', hmem, hh⟩

/-- Full characterization of the fold: when some object hits within the
entry window, the final record is the one of a member `w` that hits,
whose selected root is minimal among all hitters, and strictly smaller
than the selected root of every hitter that comes after it (so an exact
tie is resolved in favor of the later object). -/
lemma HittableList.hitAux_record {r : Ray} (t_min : ℝ) (hd : r.direction ≠ Vec3.mk 0 0 0) :
    ∀ (objects : List Sphere) (closest : WithTop ℝ),
      (∃ o ∈ objects, sphereHits o r t_min closest) →
      ∃ l₁ w l₂, objects = l₁ ++ w :: l₂
        ∧ sphereHits w r t_min closest
        ∧ (∀ (temp : HitRecord) (ha : Bool) (h : HitRecord),
            (HittableList.hitAux objects r t_min temp ha closest h).2
              = w.hitRecordAt r (sphereBestRoot w r t_min closest))
        ∧ (∀ o ∈ objects, sphereHits o r t_min closest →
            sphereBestRoot w r t_min closest ≤ sphereBestRoot o r t_min closest)
        ∧ (∀ o ∈ l₂, sphereHits o r t_min closest →
            sphereBestRoot w r t_min closest < sphereBestRoot o r t_min closest) := by
  intro objects
  induction objects with
  | nil =>
    intro closest hex
    simp at hex
  | cons o rest ih =>
    intro closest hex
    by_cases hb : sphereHits o r t_min closest
    · set b := sphereBestRoot o r t_min closest with hbdef
      have hbmem := sphereBestRoot_mem o r t_min closest hb
      by_cases hex' : ∃ o' ∈ rest, sphereHits o' r t_min ((b : ℝ) : WithTop ℝ)
      · obtain ⟨l₁, w, l₂, hsplit, hwhits, hres, hmin, hstrict⟩ := ih _ hex'
        have hwmem := sphereBestRoot_mem w r t_min ((b : ℝ) : WithTop ℝ) hwhits
        have hle : ((sphereBestRoot w r t_min ((b : ℝ) : WithTop ℝ) : ℝ) : WithTop ℝ)
            ≤ closest := le_trans hwmem.2 hbmem.2
        obtain ⟨hwC, hweq⟩ := sphereHits_shift hd w t_min ((b : ℝ) : WithTop ℝ) closest
          hwhits hle
        refine ⟨o :: l₁, w, l₂, by rw [hsplit]; rfl, hwC, ?_, ?_, ?_⟩
        · intro temp ha h
          simp only [HittableList.hitAux]
          have hbtrue : (o.hit r t_min closest temp).1 = true :=
            (Sphere.hit_fst_iff o r t_min closest temp).mpr hb
          rw [if_pos hbtrue,
            Sphere.hit_snd_of_hits o r t_min closest temp hb, Sphere.hitRecordAt_t,
            hres _ _ _, hweq]
        · intro o' ho' ho'hits
          rcases List.mem_cons.mp ho' with rfl | hmem
          · rw [hweq]
            exact WithTop.coe_le_coe.mp hwmem.2
          · by_cases hole : ((sphereBestRoot o' r t_min closest : ℝ) : WithTop ℝ)
                ≤ ((b : ℝ) : WithTop ℝ)
            · obtain ⟨ho'b, ho'eq⟩ := sphereHits_shift hd o' t_min closest
                ((b : ℝ) : WithTop ℝ) ho'hits hole
              have hm := hmin o' hmem ho'b
              rw [hweq, ← ho'eq]
              exact hm
            · push_neg at hole
              have h1 : sphereBestRoot w r t_min closest ≤ b := by
                rw [hweq]
                exact WithTop.coe_le_coe.mp hwmem.2
              have h2 : b < sphereBestRoot o' r t_min closest := WithTop.coe_lt_coe.mp hole
              exact le_of_lt (lt_of_le_of_lt h1 h2)
        · intro o' ho' ho'hits
          by_cases hole : ((sphereBestRoot o' r t_min closest : ℝ) : WithTop ℝ)
              ≤ ((b : ℝ) : WithTop ℝ)
          · obtain ⟨ho'b, ho'eq⟩ := sphereHits_shift hd o' t_min closest
              ((b : ℝ) : WithTop ℝ) ho'hits hole
            have hs := hstrict o' ho' ho'b
            rw [hweq, ← ho'eq]
            exact hs
          · push_neg at hole
            have h1 : sphereBestRoot w r t_min closest ≤ b := by
              rw [hweq]
              exact WithTop.coe_le_coe.mp hwmem.2
            have h2 : b < sphereBestRoot o' r t_min closest := WithTop.coe_lt_coe.mp hole
            exact lt_of_le_of_lt h1 h2
      · push_neg at hex'
        refine ⟨[], o, rest, rfl, hb, ?_, ?_, ?_⟩
        · intro temp ha h
          simp only [HittableList.hitAux]
          have hbtrue : (o.hit r t_min closest temp).1 = true :=
            (Sphere.hit_fst_iff o r t_min closest temp).mpr hb
          rw [if_pos hbtrue,
            Sphere.hit_snd_of_hits o r t_min closest temp hb, Sphere.hitRecordAt_t,
            HittableList.hitAux_all_miss r t_min rest _ _ _ _ hex']
        · intro o' ho' ho'hits
          rcases List.mem_cons.mp ho' with rfl | hmem
          · exact le_refl _
          · by_cases hole : ((sphereBestRoot o' r t_min closest : ℝ) : WithTop ℝ)
                ≤ ((b : ℝ) : WithTop ℝ)
            · obtain ⟨ho'b, -⟩ := sphereHits_shift hd o' t_min closest
                ((b : ℝ) : WithTop ℝ) ho'hits hole
              exact absurd ho'b (hex' o' hmem)
            · push_neg at hole
              exact le_of_lt (WithTop.coe_lt_coe.mp hole)
        · intro o' ho' ho'hits
          by_cases hole : ((sphereBestRoot o' r t_min closest : ℝ) : WithTop ℝ)
              ≤ ((b : ℝ) : WithTop ℝ)
          · obtain ⟨ho'b, -⟩ := sphereHits_shift hd o' t_min closest
              ((b : ℝ) : WithTop ℝ) ho'hits hole
            exact absurd ho'b (hex' o' ho')
          · push_neg at hole
            exact WithTop.coe_lt_coe.mp hole
    · have hex'' : ∃ o' ∈ rest, sphereHits o' r t_min closest := by
        rcases hex with ⟨o', ho', hh⟩
        rcases List.mem_cons.mp ho' with rfl | hmem
        · exact absurd hh hb
        · exact ⟨o', hmem, hh⟩
      obtain ⟨l₁, w, l₂, hsplit, hwhits, hres, hmin, hstrict⟩ := ih closest hex''
      refine ⟨o :: l₁, w, l₂, by rw [hsplit]; rfl, hwhits, ?_, ?_, hstrict⟩
      · intro temp ha h
        simp only [HittableList.hitAux]
        have hbfalse : ¬ (o.hit r t_min closest temp).1 = true :=
          fun hc => hb ((Sphere.hit_fst_iff o r t_min closest temp).mp hc)
        rw [if_neg hbfalse]
        exact hres _ _ _
      · intro o' ho' ho'hits
        rcases List.mem_cons.mp ho' with rfl | hmem
        · exact absurd ho'hits hb
        · exact hmin o' hmem ho'hits

/-! ## Claim C1: the aggregate hit -/

/-- Claim C1 (amended): for every ray with nonzero direction,
`HittableList::hit` returns true iff some member's `hit` returns true
on the original window, and on success the returned record equals the
hit record of a member whose selected `t` is the globally smallest
among all members' hits in the original window; when several members
hit at exactly the same smallest `t`, the record comes from the LAST
such object in iteration order (every hitter after the chosen one has a
strictly larger `t`).  (The original claim's first-object tie-break is
refuted by `hittableList_tie_counterexample`.) -/
theorem hittableList_hit_nearest (objects : HittableList) (r : Ray) (t_min : ℝ)
    (t_max : WithTop ℝ) (h₀ h₁ : HitRecord) (hd : r.direction ≠ Vec3.mk 0 0 0) :
    ((HittableList.hit objects r t_min t_max h₀).1 = true ↔
      ∃ o ∈ objects, (o.hit r t_min t_max h₁).1 = true)
    ∧ ((HittableList.hit objects r t_min t_max h₀).1 = true →
      ∃ l₁ w l₂, objects = l₁ ++ w :: l₂
        ∧ (w.hit r t_min t_max h₁).1 = true
        ∧ (HittableList.hit objects r t_min t_max h₀).2 = (w.hit r t_min t_max h₁).2
        ∧ (∀ o ∈ objects, (o.hit r t_min t_max h₁).1 = true →
            (w.hit r t_min t_max h₁).2.t ≤ (o.hit r t_min t_max h₁).2.t)
        ∧ (∀ o ∈ l₂, (o.hit r t_min t_max h₁).1 = true →
            (w.hit r t_min t_max h₁).2.t < (o.hit r t_min t_max h₁).2.t)) := by
  have hfst : (HittableList.hit objects r t_min t_max h₀).1 = true ↔
      ∃ o ∈ objects, sphereHits o r t_min t_max :=
    HittableList.hitAux_fst r t_min objects HitRecord.default t_max h₀
  constructor
  · rw [hfst]
    constructor
    · rintro ⟨o, ho, hh⟩
      exact ⟨o, ho, (Sphere.hit_fst_iff o r t_min t_max h₁).mpr hh⟩
    · rintro ⟨o, ho, hh⟩
      exact ⟨o, ho, (Sphere.hit_fst_iff o r t_min t_max h₁).mp hh⟩
  · intro htrue
    have hex := hfst.mp htrue
    obtain ⟨l₁, w, l₂, hsplit, hwhits, hres, hmin, hstrict⟩ :=
      HittableList.hitAux_record t_min hd objects t_max hex
    refine ⟨l₁, w, l₂, hsplit, (Sphere.hit_fst_iff w r t_min t_max h₁).mpr hwhits, ?_, ?_, ?_⟩
    · rw [show (HittableList.hit objects r t_min t_max h₀).2
          = (HittableList.hitAux objects r t_min HitRecord.default false t_max h₀).2 from rfl,
        hres HitRecord.default false h₀,
        Sphere.hit_snd_of_hits w r t_min t_max h₁ hwhits]
    · intro o ho hohit
      have hoh := (Sphere.hit_fst_iff o r t_min t_max h₁).mp hohit
      rw [Sphere.hit_snd_of_hits w r t_min t_max h₁ hwhits, Sphere.hitRecordAt_t,
        Sphere.hit_snd_of_hits o r t_min t_max h₁ hoh, Sphere.hitRecordAt_t]
      exact hmin o ho hoh
    · intro o ho hohit
      have hoh := (Sphere.hit_fst_iff o r t_min t_max h₁).mp hohit
      rw [Sphere.hit_snd_of_hits w r t_min t_max h₁ hwhits, Sphere.hitRecordAt_t,
        Sphere.hit_snd_of_hits o r t_min t_max h₁ hoh, Sphere.hitRecordAt_t]
      exact hstrict o ho hoh

lemma tieDisc1 : sphereDisc tieSphere1 tieRay = 1 := by
  simp only [sphereDisc, tieSphere1, tieRay, dot, Vec3.length_squared, Vec3.sub_def]
  norm_num

lemma tieDisc2 : sphereDisc tieSphere2 tieRay = 1 := by
  simp only [sphereDisc, tieSphere2, tieRay, dot, Vec3.length_squared, Vec3.sub_def]
  norm_num

lemma tieRoot1Val1 : sphereRoot1 tieSphere1 tieRay = 1 := by
  unfold sphereRoot1
  rw [tieDisc1, Real.sqrt_one]
  simp only [tieSphere1, tieRay, dot, Vec3.length_squared, Vec3.sub_def]
  norm_num

lemma tieRoot1Val2 : sphereRoot1 tieSphere2 tieRay = 1 := by
  unfold sphereRoot1
  rw [tieDisc2, Real.sqrt_one]
  simp only [tieSphere2, tieRay, dot, Vec3.length_squared, Vec3.sub_def]
  norm_num

lemma tieWin1 : inWindow 0 ((10 : ℝ) : WithTop ℝ) (sphereRoot1 tieSphere1 tieRay) := by
  rw [tieRoot1Val1]
  exact ⟨by norm_num, WithTop.coe_le_coe.mpr (by norm_num)⟩

lemma tieWin2 : inWindow 0 ((10 : ℝ) : WithTop ℝ) (sphereRoot1 tieSphere2 tieRay) := by
  rw [tieRoot1Val2]
  exact ⟨by norm_num, WithTop.coe_le_coe.mpr (by norm_num)⟩

lemma tieWin2s : inWindow 0 ((1 : ℝ) : WithTop ℝ) (sphereRoot1 tieSphere2 tieRay) := by
  rw [tieRoot1Val2]
  exact ⟨by norm_num, WithTop.coe_le_coe.mpr (by norm_num)⟩

lemma tieHits1 : sphereHits tieSphere1 tieRay 0 ((10 : ℝ) : WithTop ℝ) :=
  ⟨by rw [tieDisc1]; norm_num, Or.inl tieWin1⟩

lemma tieHits2 : sphereHits tieSphere2 tieRay 0 ((10 : ℝ) : WithTop ℝ) :=
  ⟨by rw [tieDisc2]; norm_num, Or.inl tieWin2⟩

lemma tieHits2s : sphereHits tieSphere2 tieRay 0 ((1 : ℝ) : WithTop ℝ) :=
  ⟨by rw [tieDisc2]; norm_num, Or.inl tieWin2s⟩

lemma tieBest1 : sphereBestRoot tieSphere1 tieRay 0 ((10 : ℝ) : WithTop ℝ) = 1 := by
  unfold sphereBestRoot
  rw [if_pos tieWin1, tieRoot1Val1]

lemma tieBest2 : sphereBestRoot tieSphere2 tieRay 0 ((10 : ℝ) : WithTop ℝ) = 1 := by
  unfold sphereBestRoot
  rw [if_pos tieWin2, tieRoot1Val2]

lemma tieBest2s : sphereBestRoot tieSphere2 tieRay 0 ((1 : ℝ) : WithTop ℝ) = 1 := by
  unfold sphereBestRoot
  rw [if_pos tieWin2s, tieRoot1Val2]

/-- Counterexample to C1 as stated: two spheres with identical geometry
but different materials are both first met by the ray at t = 1.  Both
members hit the original window with the same `t`, yet the aggregate's
record carries the SECOND sphere's material, not the first one's: the
code lets a later object at exactly the same `t` overwrite the record,
so the "first object encountered in iteration order wins exact ties"
part of the claim is false. -/
theorem hittableList_tie_counterexample :
    (tieSphere1.hit tieRay 0 ((10 : ℝ) : WithTop ℝ) HitRecord.default).1 = true
    ∧ (tieSphere2.hit tieRay 0 ((10 : ℝ) : WithTop ℝ) HitRecord.default).1 = true
    ∧ (tieSphere1.hit tieRay 0 ((10 : ℝ) : WithTop ℝ) HitRecord.default).2.t
        = (tieSphere2.hit tieRay 0 ((10 : ℝ) : WithTop ℝ) HitRecord.default).2.t
    ∧ (HittableList.hit [tieSphere1, tieSphere2] tieRay 0 ((10 : ℝ) : WithTop ℝ)
        HitRecord.default).2.mat_ptr = tieSphere2.mat_ptr
    ∧ (tieSphere1.hit tieRay 0 ((10 : ℝ) : WithTop ℝ) HitRecord.default).2.mat_ptr
        = tieSphere1.mat_ptr
    ∧ tieSphere1.mat_ptr ≠ tieSphere2.mat_ptr := by
  refine ⟨(Sphere.hit_fst_iff _ _ _ _ _).mpr tieHits1,
    (Sphere.hit_fst_iff _ _ _ _ _).mpr tieHits2, ?_, ?_, ?_, ?_⟩
  · rw [Sphere.hit_snd_of_hits _ _ _ _ _ tieHits1, Sphere.hitRecordAt_t, tieBest1,
      Sphere.hit_snd_of_hits _ _ _ _ _ tieHits2, Sphere.hitRecordAt_t, tieBest2]
  · rw [show (HittableList.hit [tieSphere1, tieSphere2] tieRay 0 ((10 : ℝ) : WithTop ℝ)
        HitRecord.default)
        = HittableList.hitAux [tieSphere1, tieSphere2] tieRay 0 HitRecord.default false
          ((10 : ℝ) : WithTop ℝ) HitRecord.default from rfl]
    simp only [HittableList.hitAux]
    rw [if_pos ((Sphere.hit_fst_iff _ _ _ _ _).mpr tieHits1)]
    rw [Sphere.hit_snd_of_hits _ _ _ _ _ tieHits1, Sphere.hitRecordAt_t, tieBest1]
    rw [if_pos ((Sphere.hit_fst_iff _ _ _ _ _).mpr tieHits2s)]
    rw [Sphere.hit_snd_of_hits _ _ _ _ _ tieHits2s, tieBest2s, Sphere.hitRecordAt_mat]
  · rw [Sphere.hit_snd_of_hits _ _ _ _ _ tieHits1, Sphere.hitRecordAt_mat]
  · rw [show tieSphere1.mat_ptr = Material.lambertian (Vec3.mk 1 0 0) from rfl,
      show tieSphere2.mat_ptr = Material.lambertian (Vec3.mk 0 1 0) from rfl]
    intro hc
    simp only [Material.lambertian.injEq, Vec3.mk.injEq] at hc
    norm_num at hc

/-- Witness for C1 at a concrete input: the one-sphere scene around
`wSphere` reports a hit for `wRay`. -/
theorem hittableList_hit_nearest_witness :
    (HittableList.hit [wSphere] wRay 0 ((10 : ℝ) : WithTop ℝ) HitRecord.default).1 = true :=
  (hittableList_hit_nearest [wSphere] wRay 0 ((10 : ℝ) : WithTop ℝ) HitRecord.default
      HitRecord.default wRay_direction_ne).1.mpr
    ⟨wSphere, by simp, (Sphere.hit_fst_iff _ _ _ _ _).mpr wSphere_hits⟩
